import Mathlib

/-!
Verification of the `urban95` accessibility preprocessing pipeline
(`src/preprocess_accessibility.py`) against its specification.

The Python code is shallowly embedded: pandas/geopandas tables become
lists of records, geometries become finite point sets or GeoJSON-style
coordinate trees over exact rationals, and the library spatial predicate
`within` ("fully contained") becomes point-set inclusion.  Geometry
library primitives that the claims do not inspect (the `buffer`
operation) are passed in as parameters.
-/

namespace Urban95

/-! ### Text repair (`repair_text_encoding`) -/

/-- The mojibake marker characters the code scans for
(`mojibake_indicators = ("×", "Ø", "Ù", "Ú", "Û", "Ü")`). -/
def mojibake_indicators : List Char := ['×', 'Ø', 'Ù', 'Ú', 'Û', 'Ü']

/-- `any(indicator in text for indicator in mojibake_indicators)`. -/
def hasMojibake (s : String) : Bool :=
  s.data.any (fun c => mojibake_indicators.contains c)

/-- `text.encode("latin-1", errors="ignore")`: each character with code
point ≤ 255 becomes that byte; unmappable code points are dropped. -/
def latin1EncodeIgnore (cs : List Char) : List Nat :=
  cs.filterMap (fun c => if c.toNat ≤ 255 then some c.toNat else none)

/-- `bytes.decode("utf-8", errors="ignore")`: standard UTF-8 decoding,
skipping over maximal invalid subparts (Python's `ignore` handler). -/
def utf8DecodeIgnore : List Nat → List Char
  | [] => []
  | b :: rest =>
    if b < 0x80 then
      Char.ofNat b :: utf8DecodeIgnore rest
    else if 0xC2 ≤ b ∧ b ≤ 0xDF then
      match rest with
      | [] => []
      | b2 :: rest2 =>
        if 0x80 ≤ b2 ∧ b2 ≤ 0xBF then
          Char.ofNat ((b - 0xC0) * 0x40 + (b2 - 0x80)) :: utf8DecodeIgnore rest2
        else
          utf8DecodeIgnore (b2 :: rest2)
    else if 0xE0 ≤ b ∧ b ≤ 0xEF then
      match rest with
      | [] => []
      | b2 :: rest2 =>
        if (if b = 0xE0 then 0xA0 ≤ b2 ∧ b2 ≤ 0xBF
            else if b = 0xED then 0x80 ≤ b2 ∧ b2 ≤ 0x9F
            else 0x80 ≤ b2 ∧ b2 ≤ 0xBF) then
          match rest2 with
          | [] => []
          | b3 :: rest3 =>
            if 0x80 ≤ b3 ∧ b3 ≤ 0xBF then
              Char.ofNat ((b - 0xE0) * 0x1000 + (b2 - 0x80) * 0x40 + (b3 - 0x80)) ::
                utf8DecodeIgnore rest3
            else
              utf8DecodeIgnore (b3 :: rest3)
        else
          utf8DecodeIgnore (b2 :: rest2)
    else if 0xF0 ≤ b ∧ b ≤ 0xF4 then
      match rest with
      | [] => []
      | b2 :: rest2 =>
        if (if b = 0xF0 then 0x90 ≤ b2 ∧ b2 ≤ 0xBF
            else if b = 0xF4 then 0x80 ≤ b2 ∧ b2 ≤ 0x8F
            else 0x80 ≤ b2 ∧ b2 ≤ 0xBF) then
          match rest2 with
          | [] => []
          | b3 :: rest3 =>
            if 0x80 ≤ b3 ∧ b3 ≤ 0xBF then
              match rest3 with
              | [] => []
              | b4 :: rest4 =>
                if 0x80 ≤ b4 ∧ b4 ≤ 0xBF then
                  Char.ofNat ((b - 0xF0) * 0x40000 + (b2 - 0x80) * 0x1000 +
                      (b3 - 0x80) * 0x40 + (b4 - 0x80)) :: utf8DecodeIgnore rest4
                else
                  utf8DecodeIgnore (b4 :: rest4)
            else
              utf8DecodeIgnore (b3 :: rest3)
        else
          utf8DecodeIgnore (b2 :: rest2)
    else
      utf8DecodeIgnore rest

/-- `text.encode("latin-1", errors="ignore").decode("utf-8", errors="ignore")`. -/
def attemptRepair (s : String) : String :=
  String.mk (utf8DecodeIgnore (latin1EncodeIgnore s.data))

/-- A Python attribute value as seen by `repair_text_encoding`: a string
or some non-string scalar (number / null). -/
inductive PyVal where
  | str (s : String)
  | num (q : ℚ)
  | null
deriving DecidableEq

/-- `repair_text_encoding`: returns non-strings and empty strings
unchanged; returns marker-free strings unchanged; otherwise attempts the
latin-1 / utf-8 round trip and keeps the original when the result is
empty or identical.  Both codec calls use `errors="ignore"`, so the
`except` branch of the source cannot fire; the embedding is total. -/
def repair_text_encoding (v : PyVal) : PyVal :=
  match v with
  | .str text =>
    if text = "" then .str text
    else if ¬ hasMojibake text then .str text
    else if attemptRepair text = "" ∨ attemptRepair text = text then .str text
    else .str (attemptRepair text)
  | v => v

/-- Claim C8: text repair is the identity on untouched input — every
non-string value, and every string containing none of the mojibake
marker glyphs, is returned unchanged by `repair_text_encoding`. -/
theorem repair_text_noop (v : PyVal)
    (h : ∀ s, v = PyVal.str s → hasMojibake s = false) :
    repair_text_encoding v = v := by
  cases v with
  | str s =>
    have hs := h s rfl
    by_cases he : s = ""
    · simp [repair_text_encoding, he]
    · simp [repair_text_encoding, he, hs]
  | num q => rfl
  | null => rfl

/-- Witness for C8: the marker-free string "hello" is returned unchanged. -/
theorem repair_text_noop_witness :
    repair_text_encoding (PyVal.str "hello") = PyVal.str "hello" :=
  repair_text_noop (PyVal.str "hello")
    (by intro s hs; cases hs; decide)

/-- Claim C9: on a non-empty string the repair is conservative — the
result is never the empty string, and whenever the attempted latin-1 /
utf-8 round trip yields the empty string or a string identical to the
input, the original input is returned.  (Both codec calls use
`errors="ignore"`, so no encoding/decoding error can occur; the
`except` fallback of the source is unreachable and the embedding is a
total function.) -/
theorem repair_text_conservative (s : String) (h : s ≠ "") :
    repair_text_encoding (PyVal.str s) ≠ PyVal.str "" ∧
      ((attemptRepair s = "" ∨ attemptRepair s = s) →
        repair_text_encoding (PyVal.str s) = PyVal.str s) := by
  constructor
  · simp only [repair_text_encoding]
    split_ifs with h1 h2 h3 <;> simp_all
  · intro hrep
    simp only [repair_text_encoding]
    split_ifs with h1 h2 <;> simp_all

/-- Witness for C9: at the non-empty input "a" the attempted repair is
identical to the input, and the original is indeed returned (and is not
the empty string). -/
theorem repair_text_conservative_witness :
    repair_text_encoding (PyVal.str "a") ≠ PyVal.str "" ∧
      repair_text_encoding (PyVal.str "a") = PyVal.str "a" :=
  ⟨(repair_text_conservative "a" (by decide)).1,
   (repair_text_conservative "a" (by decide)).2 (Or.inr (by decide))⟩

/-! ### Duplicate attribute-name renaming (`_unique_columns`) -/

/-- Decimal digits of a natural number, most significant first, with
structural fuel (the rendering Python's f-string `f"{c}_{seen[c]}"`
applies to the integer counter). -/
def natReprCore : ℕ → ℕ → List Char
  | 0, _ => []
  | fuel + 1, n =>
    if n < 10 then [Nat.digitChar n]
    else natReprCore fuel (n / 10) ++ [Nat.digitChar (n % 10)]

/-- Decimal rendering of a natural number. -/
def natRepr (n : ℕ) : String := String.mk (natReprCore (n + 1) n)

/-- Value of a most-significant-first digit string. -/
def parseDigits (l : List Char) : ℕ :=
  l.foldl (fun a c => a * 10 + (c.toNat - 48)) 0

theorem digitChar_toNat (m : ℕ) (h : m < 10) : (Nat.digitChar m).toNat = m + 48 := by
  interval_cases m <;> rfl

theorem digitChar_ne_underscore (m : ℕ) (h : m < 10) : Nat.digitChar m ≠ '_' := by
  interval_cases m <;> decide

theorem parseDigits_append_singleton (xs : List Char) (c : Char) :
    parseDigits (xs ++ [c]) = parseDigits xs * 10 + (c.toNat - 48) := by
  simp [parseDigits, List.foldl_append]

theorem parseDigits_natReprCore :
    ∀ (fuel n : ℕ), n < fuel → parseDigits (natReprCore fuel n) = n := by
  intro fuel
  induction fuel with
  | zero => intro n h; omega
  | succ fuel ih =>
    intro n h
    by_cases h10 : n < 10
    · simp [natReprCore, h10, parseDigits, digitChar_toNat n h10]
    · have hrec : n / 10 < fuel := by omega
      have hmod : n % 10 < 10 := Nat.mod_lt _ (by norm_num)
      rw [natReprCore, if_neg h10, parseDigits_append_singleton, ih (n / 10) hrec,
        digitChar_toNat _ hmod]
      omega

theorem natRepr_injective {m n : ℕ} (h : natRepr m = natRepr n) : m = n := by
  have hd : natReprCore (m + 1) m = natReprCore (n + 1) n := by
    have := congrArg String.data h
    simpa [natRepr] using this
  have := congrArg parseDigits hd
  rwa [parseDigits_natReprCore _ _ (Nat.lt_succ_self m),
    parseDigits_natReprCore _ _ (Nat.lt_succ_self n)] at this

theorem natReprCore_no_underscore :
    ∀ (fuel n : ℕ), '_' ∉ natReprCore fuel n := by
  intro fuel
  induction fuel with
  | zero => intro n; simp [natReprCore]
  | succ fuel ih =>
    intro n
    by_cases h10 : n < 10
    · simp only [natReprCore, if_pos h10, List.mem_singleton]
      exact fun hc => digitChar_ne_underscore n h10 hc.symm
    · simp only [natReprCore, if_neg h10, List.mem_append, List.mem_singleton]
      rintro (hc | hc)
      · exact ih _ hc
      · exact digitChar_ne_underscore _ (Nat.mod_lt _ (by norm_num)) hc.symm

/-- In `A1 ++ u :: B1`, if `u` occurs in neither `A1` nor `A2`, the
decomposition at the first occurrence of `u` is unique. -/
theorem firstSplitUnique {α : Type} (u : α) :
    ∀ (A1 A2 B1 B2 : List α), u ∉ A1 → u ∉ A2 →
      A1 ++ u :: B1 = A2 ++ u :: B2 → A1 = A2 ∧ B1 = B2 := by
  intro A1
  induction A1 with
  | nil =>
    intro A2 B1 B2 _ h2 he
    cases A2 with
    | nil => simpa using he
    | cons a A2 =>
      simp only [List.nil_append, List.cons_append, List.cons.injEq] at he
      exact absurd (he.1 ▸ List.mem_cons_self a A2) h2
  | cons a A1 ih =>
    intro A2 B1 B2 h1 h2 he
    cases A2 with
    | nil =>
      simp only [List.cons_append, List.nil_append, List.cons.injEq] at he
      exact absurd (by rw [he.1]; exact List.mem_cons_self u A1 : u ∈ a :: A1) h1
    | cons b A2 =>
      simp only [List.cons_append, List.cons.injEq] at he
      obtain ⟨hab, hrest⟩ := he
      have h1a : u ∉ A1 := fun hm => h1 (List.mem_cons_of_mem _ hm)
      have h2a : u ∉ A2 := fun hm => h2 (List.mem_cons_of_mem _ hm)
      obtain ⟨hA, hB⟩ := ih A2 B1 B2 h1a h2a hrest
      exact ⟨by rw [hab, hA], hB⟩

/-- Splitting a name at the last underscore is unambiguous when the
suffixes contain no underscore. -/
theorem underscoreSuffixInj (c d t1 t2 : String)
    (h1 : '_' ∉ t1.data) (h2 : '_' ∉ t2.data)
    (he : c ++ "_" ++ t1 = d ++ "_" ++ t2) : c = d ∧ t1 = t2 := by
  have hdata : c.data ++ '_' :: t1.data = d.data ++ '_' :: t2.data := by
    have h0 := congrArg String.data he
    simpa [String.data_append] using h0
  have hrev : t1.data.reverse ++ '_' :: c.data.reverse
      = t2.data.reverse ++ '_' :: d.data.reverse := by
    have h0 := congrArg List.reverse hdata
    simpa [List.reverse_append] using h0
  obtain ⟨ht, hc⟩ := firstSplitUnique '_' _ _ _ _
    (by simpa using h1) (by simpa using h2) hrev
  refine ⟨?_, ?_⟩
  · apply String.ext
    exact List.reverse_injective hc
  · apply String.ext
    exact List.reverse_injective ht

/-- The loop body of `_unique_columns`: `seen` is the Python dict
(newest binding first), `seen[c] += 1` is modeled by consing the updated
binding, and the renamed column is `f"{c}_{seen[c]}"`. -/
def uniqueColsAux : List String → List (String × ℕ) → List String
  | [], _ => []
  | c :: cs, seen =>
    match seen.lookup c with
    | some k => (c ++ "_" ++ natRepr (k + 1)) :: uniqueColsAux cs ((c, k + 1) :: seen)
    | none => c :: uniqueColsAux cs ((c, 0) :: seen)

/-- `_unique_columns` on the list of column names: returns the list
unchanged when it is already duplicate-free
(`len(cols) == len(set(cols))`), otherwise renames repeated occurrences
with `_1`, `_2`, … suffixes. -/
def unique_columns (cols : List String) : List String :=
  if cols.Nodup then cols else uniqueColsAux cols []

/-- The name assigned to an occurrence preceded by `k` equal names:
unchanged first occurrence for `k = 0`, suffixed `_k` otherwise. -/
def rename1 (c : String) (k : ℕ) : String :=
  if k = 0 then c else c ++ "_" ++ natRepr k

/-- Reference form of the renaming loop: `pre` is the list of column
names already consumed. -/
def renameFrom : List String → List String → List String
  | _, [] => []
  | pre, c :: cs => rename1 c (pre.count c) :: renameFrom (pre ++ [c]) cs

/-- Number of occurrences of `c` recorded in the `seen` dict. -/
def seenCount (seen : List (String × ℕ)) (c : String) : ℕ :=
  match seen.lookup c with
  | none => 0
  | some k => k + 1

theorem seenCount_update (seen : List (String × ℕ)) (c x : String) (k : ℕ) :
    seenCount ((c, k) :: seen) x = if x = c then k + 1 else seenCount seen x := by
  by_cases hx : x = c
  · subst hx
    simp [seenCount, List.lookup]
  · simp [seenCount, List.lookup, hx, beq_eq_false_iff_ne.mpr hx]

theorem uniqueColsAux_eq_renameFrom :
    ∀ (cols : List String) (seen : List (String × ℕ)) (pre : List String),
      (∀ c, seenCount seen c = pre.count c) →
      uniqueColsAux cols seen = renameFrom pre cols := by
  intro cols
  induction cols with
  | nil => intro seen pre _; rfl
  | cons c cs ih =>
    intro seen pre hcount
    have hc := hcount c
    have hnext : ∀ x, seenCount ((c, seenCount seen c) :: seen) x = (pre ++ [c]).count x := by
      intro x
      rw [seenCount_update]
      by_cases hx : x = c
      · subst hx
        simp [List.count_append, hcount x]
      · simp [List.count_append, hx, hcount x]
    cases hlk : seen.lookup c with
    | none =>
      have hc0 : pre.count c = 0 := by rw [← hc]; simp [seenCount, hlk]
      have hseen : seenCount seen c = 0 := by simp [seenCount, hlk]
      simp only [uniqueColsAux, hlk]
      rw [renameFrom, rename1, if_pos hc0]
      rw [ih ((c, 0) :: seen) (pre ++ [c]) (by simpa [hseen] using hnext)]
    | some k =>
      have hck : pre.count c = k + 1 := by rw [← hc]; simp [seenCount, hlk]
      have hseen : seenCount seen c = k + 1 := by simp [seenCount, hlk]
      simp only [uniqueColsAux, hlk]
      rw [renameFrom, rename1, if_neg (by omega : ¬ pre.count c = 0), hck]
      rw [ih ((c, k + 1) :: seen) (pre ++ [c]) (by simpa [hseen] using hnext)]

theorem renameFrom_eq_self_of_count_zero :
    ∀ (cs pre : List String), (∀ c ∈ cs, pre.count c = 0) → cs.Nodup →
      renameFrom pre cs = cs := by
  intro cs
  induction cs with
  | nil => intro pre _ _; rfl
  | cons c cs ih =>
    intro pre hz hnd
    have hc0 : pre.count c = 0 := hz c (List.mem_cons_self c cs)
    rw [renameFrom, rename1, if_pos hc0]
    congr 1
    apply ih
    · intro x hx
      have hxz : pre.count x = 0 := hz x (List.mem_cons_of_mem _ hx)
      have hxc : x ≠ c := fun he => (List.nodup_cons.mp hnd).1 (he ▸ hx)
      simp [List.count_append, hxz, List.count_singleton, hxc]
    · exact (List.nodup_cons.mp hnd).2

/-- `unique_columns` always agrees with the reference renaming loop. -/
theorem unique_columns_eq_renameFrom (cols : List String) :
    unique_columns cols = renameFrom [] cols := by
  unfold unique_columns
  by_cases hnd : cols.Nodup
  · rw [if_pos hnd, renameFrom_eq_self_of_count_zero cols [] (by simp) hnd]
  · rw [if_neg hnd]
    exact uniqueColsAux_eq_renameFrom cols [] [] (by intro c; simp [seenCount, List.lookup])

theorem renameFrom_length : ∀ (cs pre : List String), (renameFrom pre cs).length = cs.length := by
  intro cs
  induction cs with
  | nil => intro pre; rfl
  | cons c cs ih => intro pre; simp [renameFrom, ih]

theorem renameFrom_getElem :
    ∀ (cs pre : List String) (i : ℕ) (h : i < cs.length),
      (renameFrom pre cs)[i]? = some (rename1 cs[i] ((pre ++ cs.take i).count cs[i])) := by
  intro cs
  induction cs with
  | nil => intro pre i h; simp at h
  | cons c cs ih =>
    intro pre i h
    cases i with
    | zero => simp [renameFrom]
    | succ i =>
      have hi : i < cs.length := by simpa using h
      simp only [renameFrom, List.getElem?_cons_succ, List.getElem_cons_succ,
        List.take_succ_cons]
      rw [ih (pre ++ [c]) i hi]
      simp [List.append_assoc]

theorem renameFrom_mem (cs pre : List String) (x : String) (hx : x ∈ renameFrom pre cs) :
    ∃ j, ∃ h : j < cs.length, x = rename1 cs[j] ((pre ++ cs.take j).count cs[j]) := by
  obtain ⟨j, hj⟩ := List.mem_iff_getElem?.mp hx
  have hjlen : j < cs.length := by
    rw [← renameFrom_length cs pre]
    exact (List.getElem?_eq_some.mp hj).1
  rw [renameFrom_getElem cs pre j hjlen] at hj
  exact ⟨j, hjlen, (Option.some_injective _ hj).symm⟩

theorem renameFrom_nodup (cols : List String)
    (H : ∀ c ∈ cols, ∀ d ∈ cols, ∀ k < cols.length + 1, 1 ≤ k →
      c ≠ d ++ "_" ++ natRepr k) :
    ∀ (cs pre : List String), pre ++ cs = cols → (renameFrom pre cs).Nodup := by
  intro cs
  induction cs with
  | nil => intro pre _; simp [renameFrom]
  | cons c cs ih =>
    intro pre hsplit
    rw [renameFrom, List.nodup_cons]
    have hsplit2 : (pre ++ [c]) ++ cs = cols := by simpa [List.append_assoc] using hsplit
    refine ⟨?_, ih (pre ++ [c]) hsplit2⟩
    intro hmem
    obtain ⟨j, hj, hx⟩ := renameFrom_mem cs (pre ++ [c]) _ hmem
    have hcmem : c ∈ cols := by
      rw [← hsplit]; exact List.mem_append_right pre (List.mem_cons_self c cs)
    have hdmem : cs[j] ∈ cols := by
      rw [← hsplit]
      exact List.mem_append_right pre (List.mem_cons_of_mem c (List.getElem_mem hj))
    have hsub : ((pre ++ [c]) ++ cs.take j).Sublist cols := by
      rw [← hsplit2]
      exact List.Sublist.append_left (List.take_sublist j cs) (pre ++ [c])
    have hk2le : ((pre ++ [c]) ++ cs.take j).count cs[j] ≤ cols.length :=
      le_trans (hsub.count_le cs[j]) (List.count_le_length cs[j] cols)
    have hk1le : pre.count c ≤ cols.length := by
      have hsub1 : pre.Sublist cols := by
        rw [← hsplit]; exact (List.sublist_append_left pre (c :: cs))
      exact le_trans (hsub1.count_le c) (List.count_le_length c cols)
    rcases Nat.eq_zero_or_pos (pre.count c) with h1 | h1 <;>
      rcases Nat.eq_zero_or_pos (((pre ++ [c]) ++ cs.take j).count cs[j]) with h2 | h2
    · -- both first occurrences: then the later one has a positive count
      rw [rename1, if_pos h1, rename1, if_pos h2] at hx
      rw [← hx] at h2
      simp [List.count_append] at h2
    · -- an original name equals a generated suffixed name
      rw [rename1, if_pos h1, rename1, if_neg (by omega)] at hx
      exact H c hcmem cs[j] hdmem _ (by omega) h2 hx
    · rw [rename1, if_neg (by omega), rename1, if_pos h2] at hx
      exact H cs[j] hdmem c hcmem _ (by omega) h1 hx.symm
    · rw [rename1, if_neg (by omega), rename1, if_neg (by omega)] at hx
      obtain ⟨hcd, hrepr⟩ := underscoreSuffixInj _ _ _ _
        (natReprCore_no_underscore _ _) (natReprCore_no_underscore _ _) hx
      have hk := natRepr_injective hrepr
      rw [← hcd] at h2 hk
      have : ((pre ++ [c]) ++ cs.take j).count c = pre.count c + 1 + (cs.take j).count c := by
        simp [List.count_append]
        omega
      omega

/-- Claim C6 (amended): `_unique_columns` renames the second, third, …
occurrence of a duplicated name by suffixing `_1`, `_2`, … in first-seen
order (position `i` receives suffix `_k` where `k` is the number of
earlier equal names, and is unchanged when `k = 0`, so non-duplicated
names and first occurrences are unchanged); the output has the same
length as the input and is pairwise distinct PROVIDED no input name
coincides with a generated name, i.e. no input name equals
`d ++ "_" ++ k` for an input name `d` and a decimal numeral `k ≥ 1`.
(Without that proviso distinctness fails, see
`unique_columns_not_injective_cex`.) -/
theorem unique_columns_spec (cols : List String)
    (H : ∀ c ∈ cols, ∀ d ∈ cols, ∀ k < cols.length + 1, 1 ≤ k →
      c ≠ d ++ "_" ++ natRepr k) :
    (unique_columns cols).length = cols.length ∧
    (∀ (i : ℕ) (h : i < cols.length),
      (unique_columns cols)[i]? =
        some (rename1 cols[i] ((cols.take i).count cols[i]))) ∧
    (unique_columns cols).Nodup := by
  rw [unique_columns_eq_renameFrom]
  refine ⟨renameFrom_length cols [], ?_, renameFrom_nodup cols H cols [] rfl⟩
  intro i h
  simpa using renameFrom_getElem cols [] i h

/-- Witness for C6 (amended) at `["a", "b", "a"]`: the repeated "a"
becomes "a_1", the other names are unchanged, and the output is
duplicate-free. -/
theorem unique_columns_spec_witness :
    (unique_columns ["a", "b", "a"]).length = 3 ∧
      (unique_columns ["a", "b", "a"])[2]? = some "a_1" ∧
      (unique_columns ["a", "b", "a"]).Nodup := by
  obtain ⟨h1, h2, h3⟩ := unique_columns_spec ["a", "b", "a"] (by decide)
  refine ⟨h1, ?_, h3⟩
  have h4 := h2 2 (by norm_num)
  rw [show rename1 (["a", "b", "a"][2]) ((["a", "b", "a"].take 2).count (["a", "b", "a"][2]))
      = "a_1" from by decide] at h4
  exact h4

/-- Counterexample to C6 as stated: on `["a", "a", "a_1"]` the renaming
produces `["a", "a_1", "a_1"]`, which is NOT pairwise distinct — the
generated name for the duplicated "a" collides with the pre-existing
column "a_1". -/
theorem unique_columns_not_injective_cex :
    unique_columns ["a", "a", "a_1"] = ["a", "a_1", "a_1"] ∧
      ¬ (unique_columns ["a", "a", "a_1"]).Nodup := by
  constructor <;> decide

/-! ### Coordinate-precision reduction (`reduce_coordinate_precision`) -/

/-- Python's `round(x)` on an exact value: nearest integer, ties to
even (banker's rounding). -/
def roundHalfEven (x : ℚ) : ℤ :=
  if Int.fract x = 1 / 2 then (if Even ⌊x⌋ then ⌊x⌋ else ⌊x⌋ + 1) else round x

/-- `round(x, precision)`: round to `precision` decimal digits
(coordinates are modeled as exact rationals). -/
def pyRound (x : ℚ) (p : ℕ) : ℚ := (roundHalfEven (x * 10 ^ p) : ℚ) / 10 ^ p

theorem roundHalfEven_intCast (n : ℤ) : roundHalfEven (n : ℚ) = n := by
  rw [roundHalfEven, if_neg, round_intCast]
  rw [Int.fract_intCast]
  norm_num

theorem pyRound_idem (x : ℚ) (p : ℕ) : pyRound (pyRound x p) p = pyRound x p := by
  have hp : (10 : ℚ) ^ p ≠ 0 := by positivity
  unfold pyRound
  rw [div_mul_cancel₀ _ hp, roundHalfEven_intCast]

/-- A GeoJSON coordinate tree: a coordinate position (a list of
numbers) or an array of nested coordinate arrays. -/
inductive Coords where
  | pos (l : List ℚ)
  | arr (l : List Coords)

mutual
/-- `round_coord` inside `_round_geojson_coords`: a list whose first
element is a number and whose length is at least 2 is a coordinate
pair/triple and is rounded elementwise; any other list is recursed
into; bare numbers are returned unchanged (so a too-short position is
also returned unchanged, its numbers falling through the
non-list case). -/
def round_coord (p : ℕ) : Coords → Coords
  | .pos l => if 2 ≤ l.length then .pos (l.map (fun x => pyRound x p)) else .pos l
  | .arr l => .arr (round_coordList p l)

def round_coordList (p : ℕ) : List Coords → List Coords
  | [] => []
  | c :: cs => round_coord p c :: round_coordList p cs
end

/-- The `mapping(geom)` view of a geometry: a `"type"` tag and an
optional `"coordinates"` member (`geojson.get("coordinates")` is `None`
e.g. for geometry collections). -/
structure GeoJson where
  gtype : String
  coordinates : Option Coords

/-- `_round_geojson_coords`: a dict without coordinates is returned
unchanged; otherwise the dict is rebuilt with rounded coordinates. -/
def round_geojson_coords (g : GeoJson) (p : ℕ) : GeoJson :=
  match g.coordinates with
  | none => g
  | some c => { gtype := g.gtype, coordinates := some (round_coord p c) }

mutual
def coordsIsEmpty : Coords → Bool
  | .pos l => l.isEmpty
  | .arr l => coordsListIsEmpty l

def coordsListIsEmpty : List Coords → Bool
  | [] => true
  | c :: cs => coordsIsEmpty c && coordsListIsEmpty cs
end

/-- `geom.is_empty` on the GeoJSON view: the geometry carries no
coordinate values. -/
def isEmptyG (g : GeoJson) : Bool :=
  match g.coordinates with
  | none => true
  | some c => coordsIsEmpty c

/-- `round_coords` inside `reduce_coordinate_precision`: missing
(`None`) and empty geometries are returned as-is, other geometries are
rounded through the GeoJSON view (`mapping` / `shape` are the identity
on this representation). -/
def round_coords (p : ℕ) (geom : Option GeoJson) : Option GeoJson :=
  match geom with
  | none => none
  | some g => if isEmptyG g then some g else some (round_geojson_coords g p)

/-- `reduce_coordinate_precision`, acting on the geometry column. -/
def reduce_coordinate_precision (geoms : List (Option GeoJson)) (p : ℕ) :
    List (Option GeoJson) :=
  geoms.map (round_coords p)

mutual
theorem round_coord_idem (p : ℕ) :
    ∀ (c : Coords), round_coord p (round_coord p c) = round_coord p c
  | .pos l => by
    by_cases h2 : 2 ≤ l.length
    · simp [round_coord, h2, List.map_map, Function.comp_def, pyRound_idem]
    · simp [round_coord, h2]
  | .arr l => by simp [round_coord, round_coordList_idem p l]

theorem round_coordList_idem (p : ℕ) :
    ∀ (l : List Coords), round_coordList p (round_coordList p l) = round_coordList p l
  | [] => rfl
  | c :: cs => by
    simp [round_coordList, round_coord_idem p c, round_coordList_idem p cs]
end

theorem round_geojson_coords_idem (g : GeoJson) (p : ℕ) :
    round_geojson_coords (round_geojson_coords g p) p = round_geojson_coords g p := by
  cases g with
  | mk t co =>
    cases co with
    | none => rfl
    | some c => simp [round_geojson_coords, round_coord_idem]

theorem round_coords_idem (p : ℕ) (geom : Option GeoJson) :
    round_coords p (round_coords p geom) = round_coords p geom := by
  cases geom with
  | none => rfl
  | some g =>
    by_cases he : isEmptyG g
    · simp [round_coords, he]
    · simp only [round_coords, if_neg he]
      by_cases he2 : isEmptyG (round_geojson_coords g p)
      · simp [round_coords, he2]
      · simp [round_coords, he2, round_geojson_coords_idem]

/-- Claim C7: coordinate-precision reduction is idempotent — rounding
every geometry of a layer twice at the same precision equals rounding
once, for every precision (coordinates modeled as exact rationals; the
tie-to-even integer rounding of an already-representable value is the
value itself). -/
theorem reduce_coordinate_precision_idem (geoms : List (Option GeoJson)) (p : ℕ) :
    reduce_coordinate_precision (reduce_coordinate_precision geoms p) p
      = reduce_coordinate_precision geoms p := by
  unfold reduce_coordinate_precision
  simp [List.map_map, Function.comp_def, round_coords_idem]

/-- Claim C10: `reduce_coordinate_precision` leaves degenerate
geometries untouched — a feature whose geometry is missing (`None`) or
empty keeps exactly its original geometry, for every precision. -/
theorem reduce_coordinate_precision_degenerate (geoms : List (Option GeoJson))
    (p i : ℕ) (h : i < geoms.length)
    (hdeg : geoms[i] = none ∨ ∃ g, geoms[i] = some g ∧ isEmptyG g = true) :
    (reduce_coordinate_precision geoms p).length = geoms.length ∧
      (reduce_coordinate_precision geoms p)[i]? = some geoms[i] := by
  constructor
  · simp [reduce_coordinate_precision]
  · rw [reduce_coordinate_precision, List.getElem?_map, List.getElem?_eq_getElem h]
    rcases hdeg with hnone | ⟨g, hg, hge⟩
    · simp [hnone, round_coords]
    · simp [hg, round_coords, hge]

/-- Witness for C10: a missing geometry is preserved at precision 6. -/
theorem reduce_coordinate_precision_degenerate_witness :
    (reduce_coordinate_precision [none] 6).length = 1 ∧
      (reduce_coordinate_precision [none] 6)[0]? = some none :=
  reduce_coordinate_precision_degenerate [none] 6 0 (by norm_num) (Or.inl rfl)

/-! ### Accessibility pipeline (`compute_building_accessibility`) -/

/-- A planar point in the metric CRS. -/
abbrev Pt : Type := ℚ × ℚ

/-- A raw building feature: its polygon, as the finite set of points
the claims inspect, and the value of the `is_valid` library predicate
on it (geometry validity is a geometry-library primitive, recorded as
data on the feature). -/
structure RawBuilding where
  geom : List Pt
  geom_valid : Bool
deriving DecidableEq

/-- `buildings.reset_index(drop=True)`, then the empty/invalid filter
`buildings[valid]`, then `buildings["building_id"] = buildings.index`:
pandas keeps the pre-filter index labels on the surviving rows, so each
accepted building is paired with its position in the pre-filter
frame. -/
def accept_buildings (bs : List RawBuilding) : List (ℕ × RawBuilding) :=
  bs.enum.filter (fun p => !(p.2.geom.isEmpty) && p.2.geom_valid)

/-- A raw amenity feature: its geometry (possibly missing) and the raw
classification attribute (the `top_classi` column, possibly missing). -/
structure RawAmenity where
  geom : Option (List Pt)
  top_classi : Option String
deriving DecidableEq

/-- pandas `astype(str)`: a missing value is rendered as the string
`"nan"`. -/
def pyAstype : Option String → String
  | none => "nan"
  | some s => s

/-- Python `str.lower()`. -/
def pyLower (s : String) : String := String.mk (s.data.map Char.toLower)

/-- Python `str.strip()`: whitespace removed from both ends. -/
def pyStrip (s : String) : String :=
  String.mk (((s.data.dropWhile Char.isWhitespace).reverse.dropWhile
    Char.isWhitespace).reverse)

/-- Python `str.replace(a, b)` for the single-character patterns the
code uses (`" "` and `"/"`). -/
def pyReplaceChar (a b : Char) (s : String) : String :=
  String.mk (s.data.map (fun c => if c = a then b else c))

/-- The `amenity_type` normalization chain:
`astype(str).str.strip().str.lower().str.replace(" ","_")
.str.replace("/","_").replace({"nan": None})`. -/
def normalizeType (v : Option String) : Option String :=
  let s := pyReplaceChar '/' '_' (pyReplaceChar ' ' '_' (pyLower (pyStrip (pyAstype v))))
  if s = "nan" then none else some s

/-- `amenities["amenity_type"] = ...`: each amenity row paired with its
derived type. -/
def with_amenity_type (ams : List RawAmenity) : List (RawAmenity × Option String) :=
  ams.map (fun a => (a, normalizeType a.top_classi))

/-- `amenities = amenities[~amenities["amenity_type"].isna()]`. -/
def amenities_nonnull (ams : List RawAmenity) : List (RawAmenity × Option String) :=
  (with_amenity_type ams).filter (fun p => p.2.isSome)

/-- shapely `a.within(b)` on a geometry given as a finite point set and
a buffer region given as a finite point set: full containment — every
point of the geometry lies in the region (an empty or missing geometry
is within nothing). -/
def withinO (g : Option (List Pt)) (region : List Pt) : Bool :=
  match g with
  | none => false
  | some pts => !pts.isEmpty && pts.all (fun q => decide (q ∈ region))

/-- The output rows of the left spatial join contributed by one left
feature: one row per buffer fully containing the feature's geometry, or
a single null-`building_id` row when no buffer does. -/
def sjoin_rows {α : Type} (geomOf : α → Option (List Pt))
    (bufs : List (ℕ × List Pt)) (f : α) : List (α × Option ℕ) :=
  if (bufs.filter (fun b => withinO (geomOf f) b.2)).isEmpty then [(f, none)]
  else (bufs.filter (fun b => withinO (geomOf f) b.2)).map (fun b => (f, some b.1))

/-- `gpd.sjoin(feats, buffers, predicate="within", how="left")`: one
output row per (feature, matching buffer) pair; a feature matching no
buffer produces a single row whose `building_id` is null. -/
def sjoin_within_left {α : Type} (geomOf : α → Option (List Pt))
    (feats : List α) (bufs : List (ℕ × List Pt)) : List (α × Option ℕ) :=
  feats.flatMap (sjoin_rows geomOf bufs)

/-- `.dropna(subset=["building_id"])`. -/
def dropna_bid {α : Type} (rows : List (α × Option ℕ)) : List (α × ℕ) :=
  rows.filterMap (fun r => r.2.map (fun b => (r.1, b)))

/-- The accepted buildings' buffers keyed by `building_id`; the
`buffer` geometry operation is a geometry-library primitive, passed in
as `bufferFn`. -/
def building_buffers (bufferFn : List Pt → List Pt) (bs : List RawBuilding) :
    List (ℕ × List Pt) :=
  (accept_buildings bs).map (fun ib => (ib.1, bufferFn ib.2.geom))

/-- The (amenity row, building_id) pairs that feed the aggregation:
spatial join then `dropna(subset=["building_id"])`. -/
def amenity_building_pairs (bufferFn : List Pt → List Pt)
    (rawB : List RawBuilding) (rawA : List RawAmenity) :
    List ((RawAmenity × Option String) × ℕ) :=
  dropna_bid (sjoin_within_left (fun f => f.1.geom) (amenities_nonnull rawA)
    (building_buffers bufferFn rawB))

/-- `groupby(["building_id", "amenity_type"]).size()`, read off at one
key. -/
def count_pairs (pairs : List ((RawAmenity × Option String) × ℕ))
    (b : ℕ) (t : String) : ℕ :=
  (pairs.filter (fun pr => pr.2 == b && pr.1.2 == some t)).length

/-- The pivot's column labels: the amenity types observed among the
joined pairs.  (pandas orders the pivot columns lexicographically; the
ordering is irrelevant to every claim about the counted values.) -/
def observed_types (pairs : List ((RawAmenity × Option String) × ℕ)) : List String :=
  (pairs.filterMap (fun pr => pr.1.2)).dedup

/-- One pivot cell after the pivot-level `fillna(0)`: a value is
present iff the building has at least one joined pair of any type; a
building absent from the pivot index stays missing, to be filled only
after the left merge. -/
def pivot_value (pairs : List ((RawAmenity × Option String) × ℕ))
    (b : ℕ) (t : String) : Option ℕ :=
  if pairs.any (fun pr => pr.2 == b) then some (count_pairs pairs b t) else none

/-- The exported `amen_<type>` value after the merge-level
`fillna(0).astype(int)`. -/
def amen_value (pairs : List ((RawAmenity × Option String) × ℕ))
    (b : ℕ) (t : String) : ℕ :=
  (pivot_value pairs b t).getD 0

/-- The `amen_*` columns of one exported building record. -/
def building_export_row (pairs : List ((RawAmenity × Option String) × ℕ))
    (b : ℕ) : List (String × ℕ) :=
  (observed_types pairs).map (fun t => ("amen_" ++ t, amen_value pairs b t))

/-- `buildings["num_amenities"] = buildings[metric_cols].sum(axis=1)`. -/
def num_amenities (pairs : List ((RawAmenity × Option String) × ℕ)) (b : ℕ) : ℕ :=
  ((building_export_row pairs b).map Prod.snd).sum

/-- `EXCLUDED_AMENITY_TYPES = {"none", "other", "private_establishment"}`. -/
def EXCLUDED_AMENITY_TYPES : List String := ["none", "other", "private_establishment"]

/-- The export filter on the amenity layer:
`~isin(EXCLUDED_AMENITY_TYPES) & ~geometry.is_empty & geometry.notna()`
(a null type is not in the excluded set; a missing geometry is not
"empty" but fails `notna`). -/
def amenities_exported (ams : List (RawAmenity × Option String)) :
    List (RawAmenity × Option String) :=
  ams.filter (fun p =>
    !(match p.2 with
      | some t => EXCLUDED_AMENITY_TYPES.contains t
      | none => false) &&
    !(match p.1.geom with
      | some g => g.isEmpty
      | none => false) &&
    (match p.1.geom with
      | some _ => true
      | none => false))

/-- Counterexample to C3 as stated: with a valid, an empty, and another
valid building, the accepted buildings keep their pre-filter index
labels `[0, 2]` — not the dense `0..n-1` the claim asserts. -/
theorem building_id_not_dense_cex :
    (accept_buildings
        [⟨[((0 : ℚ), (0 : ℚ))], true⟩, ⟨[], true⟩,
          ⟨[((5 : ℚ), (5 : ℚ))], true⟩]).map Prod.fst = [0, 2] ∧
      ([0, 2] : List ℕ) ≠
        List.range (accept_buildings
          [⟨[((0 : ℚ), (0 : ℚ))], true⟩, ⟨[], true⟩,
            ⟨[((5 : ℚ), (5 : ℚ))], true⟩]).length := by
  constructor <;> decide

/-- Claim C3 (amended): `building_id` is assigned from the index that
`reset_index` produced BEFORE the validity filter and that pandas
preserves through it, so each accepted building's id is its position in
the pre-filter frame: the ids are strictly increasing (hence pairwise
distinct) and each id indexes its own building in the input layer, but
they are not in general consecutive — gaps remain where empty/invalid
buildings were dropped (`building_id_not_dense_cex`). -/
theorem building_id_positions (bs : List RawBuilding) :
    ((accept_buildings bs).map Prod.fst).Pairwise (· < ·) ∧
      ∀ p ∈ accept_buildings bs,
        bs[p.1]? = some p.2 ∧ p.2.geom.isEmpty = false ∧ p.2.geom_valid = true := by
  constructor
  · have h1 : ((accept_buildings bs).map Prod.fst).Sublist (bs.enum.map Prod.fst) :=
      List.Sublist.map Prod.fst (List.filter_sublist _)
    rw [List.enum_map_fst] at h1
    exact (List.pairwise_lt_range bs.length).sublist h1
  · intro p hp
    rw [accept_buildings, List.mem_filter] at hp
    obtain ⟨hmem, hcond⟩ := hp
    simp only [Bool.and_eq_true, Bool.not_eq_true'] at hcond
    exact ⟨List.mem_enum_iff_getElem?.mp hmem, hcond.1, hcond.2⟩

/-- Witness for C3 (amended): on the three-building layer of the
counterexample, the accepted ids `[0, 2]` are strictly increasing and
id 2 indexes the third input building. -/
theorem building_id_positions_witness :
    ([0, 2] : List ℕ).Pairwise (· < ·) ∧
      ([⟨[((0 : ℚ), (0 : ℚ))], true⟩, ⟨[], true⟩,
          ⟨[((5 : ℚ), (5 : ℚ))], true⟩] : List RawBuilding)[2]?
        = some ⟨[((5 : ℚ), (5 : ℚ))], true⟩ := by
  have h := building_id_positions
    [⟨[((0 : ℚ), (0 : ℚ))], true⟩, ⟨[], true⟩, ⟨[((5 : ℚ), (5 : ℚ))], true⟩]
  refine ⟨?_, (h.2 (2, ⟨[((5 : ℚ), (5 : ℚ))], true⟩) (by decide)).1⟩
  have h1 := h.1
  rw [show (accept_buildings [⟨[((0 : ℚ), (0 : ℚ))], true⟩, ⟨[], true⟩,
      ⟨[((5 : ℚ), (5 : ℚ))], true⟩]).map Prod.fst = [0, 2] from by decide] at h1
  exact h1

theorem mem_sjoin_rows_some {α : Type} (geomOf : α → Option (List Pt))
    (bufs : List (ℕ × List Pt)) (a f : α) (b : ℕ) :
    (f, some b) ∈ sjoin_rows geomOf bufs a ↔
      f = a ∧ ∃ r, (b, r) ∈ bufs ∧ withinO (geomOf a) r = true := by
  unfold sjoin_rows
  by_cases hms : (bufs.filter (fun br => withinO (geomOf a) br.2)).isEmpty
  · rw [if_pos hms]
    rw [List.isEmpty_iff] at hms
    simp only [List.mem_singleton, Prod.mk.injEq]
    constructor
    · rintro ⟨-, h⟩
      cases h
    · rintro ⟨hf, r, hr, hw⟩
      have : (b, r) ∈ bufs.filter (fun br => withinO (geomOf a) br.2) :=
        List.mem_filter.mpr ⟨hr, hw⟩
      rw [hms] at this
      cases this
  · rw [if_neg hms]
    constructor
    · intro h
      obtain ⟨br, hbr, heq⟩ := List.mem_map.mp h
      obtain ⟨hbufs, hw⟩ := List.mem_filter.mp hbr
      have h1 : a = f := congrArg Prod.fst heq
      have hb : br.1 = b := by
        have h2 := congrArg Prod.snd heq
        simpa using h2
      subst h1
      refine ⟨rfl, br.2, ?_, hw⟩
      rw [← hb]
      exact hbufs
    · rintro ⟨hf, r, hr, hw⟩
      subst hf
      exact List.mem_map.mpr ⟨(b, r), List.mem_filter.mpr ⟨hr, hw⟩, rfl⟩

theorem mem_dropna_bid {α : Type} (rows : List (α × Option ℕ)) (x : α) (b : ℕ) :
    (x, b) ∈ dropna_bid rows ↔ (x, some b) ∈ rows := by
  unfold dropna_bid
  rw [List.mem_filterMap]
  constructor
  · rintro ⟨⟨y, ob⟩, hmem, heq⟩
    cases ob with
    | none => simp at heq
    | some bb =>
      simp only [Option.map_some'] at heq
      obtain ⟨h1, h2⟩ := Prod.mk.injEq .. ▸ Option.some_injective _ heq
      subst h1
      subst h2
      exact hmem
  · intro h
    exact ⟨(x, some b), h, rfl⟩

theorem mem_sjoin_some_iff {α : Type} (geomOf : α → Option (List Pt))
    (feats : List α) (bufs : List (ℕ × List Pt)) (f : α) (b : ℕ) :
    (f, some b) ∈ sjoin_within_left geomOf feats bufs ↔
      f ∈ feats ∧ ∃ r, (b, r) ∈ bufs ∧ withinO (geomOf f) r = true := by
  unfold sjoin_within_left
  rw [List.mem_flatMap]
  constructor
  · rintro ⟨a, ha, hmem⟩
    obtain ⟨hfa, hr⟩ := (mem_sjoin_rows_some geomOf bufs a f b).mp hmem
    subst hfa
    exact ⟨ha, hr⟩
  · rintro ⟨hf, hr⟩
    exact ⟨f, hf, (mem_sjoin_rows_some geomOf bufs f f b).mpr ⟨rfl, hr⟩⟩

/-- Claim C2: the spatial join pairs a candidate feature with a
building iff the feature's geometry is fully contained in that
building's buffer; a feature fully inside no buffer (in particular one
straddling several buffers) yields no surviving pair after
`dropna(subset=["building_id"])`, hence contributes to no aggregated
count. -/
theorem spatial_join_containment {α : Type} (geomOf : α → Option (List Pt))
    (feats : List α) (bufs : List (ℕ × List Pt)) (f : α) (hf : f ∈ feats) :
    (∀ b : ℕ, (f, some b) ∈ sjoin_within_left geomOf feats bufs ↔
      ∃ r, (b, r) ∈ bufs ∧ withinO (geomOf f) r = true) ∧
    ((∀ br ∈ bufs, withinO (geomOf f) br.2 = false) →
      ∀ b : ℕ, (f, b) ∉ dropna_bid (sjoin_within_left geomOf feats bufs)) := by
  constructor
  · intro b
    rw [mem_sjoin_some_iff]
    simp [hf]
  · intro hnone b hmem
    rw [mem_dropna_bid, mem_sjoin_some_iff] at hmem
    obtain ⟨-, r, hr, hw⟩ := hmem
    rw [hnone (b, r) hr] at hw
    cases hw

/-- Witness for C2: a point feature inside a buffer is paired with that
buffer's building, and a feature inside no buffer survives into no
aggregated pair. -/
theorem spatial_join_containment_witness :
    ((0, some 7) ∈ sjoin_within_left (fun _ : ℕ => some [((0 : ℚ), (0 : ℚ))]) [0]
      [(7, [((0 : ℚ), (0 : ℚ))])]) ∧
    ((0, (7 : ℕ)) ∉ dropna_bid (sjoin_within_left
      (fun _ : ℕ => some [((1 : ℚ), (1 : ℚ))]) [0] [(7, [((0 : ℚ), (0 : ℚ))])])) :=
  ⟨((spatial_join_containment (fun _ : ℕ => some [((0 : ℚ), (0 : ℚ))]) [0]
      [(7, [((0 : ℚ), (0 : ℚ))])] 0 (by decide)).1 7).mpr
      ⟨[((0 : ℚ), (0 : ℚ))], by decide, by decide⟩,
   (spatial_join_containment (fun _ : ℕ => some [((1 : ℚ), (1 : ℚ))]) [0]
      [(7, [((0 : ℚ), (0 : ℚ))])] 0 (by decide)).2 (by decide) 7⟩

/-- The merge-then-fill chain gives every building the actual pair
count for every type: a building absent from the pivot index has no
joined pairs at all, so its filled value 0 is its true count. -/
theorem amen_value_eq_count (pairs : List ((RawAmenity × Option String) × ℕ))
    (b : ℕ) (t : String) : amen_value pairs b t = count_pairs pairs b t := by
  unfold amen_value pivot_value
  split_ifs with h
  · rfl
  · simp only [Option.getD_none]
    symm
    rw [count_pairs, List.length_eq_zero, List.filter_eq_nil_iff]
    intro pr hpr
    have hb : ¬ (pr.2 == b) = true := by
      intro hc
      exact h (List.any_eq_true.mpr ⟨pr, hpr, hc⟩)
    simp [Bool.and_eq_true, hb]

/-- Claim C1: every accepted building's exported record carries a value
for every `amen_<category>` column observed in the run — the value
being the building's actual pair count of that category, possibly 0 and
never absent, including for buildings with zero joined amenities — and
its `num_amenities` equals the sum of all its `amen_*` values. -/
theorem count_completeness (bufferFn : List Pt → List Pt)
    (rawB : List RawBuilding) (rawA : List RawAmenity)
    (ib : ℕ × RawBuilding) (_hb : ib ∈ accept_buildings rawB) :
    (∀ t ∈ observed_types (amenity_building_pairs bufferFn rawB rawA),
      ("amen_" ++ t,
        count_pairs (amenity_building_pairs bufferFn rawB rawA) ib.1 t) ∈
        building_export_row (amenity_building_pairs bufferFn rawB rawA) ib.1) ∧
    num_amenities (amenity_building_pairs bufferFn rawB rawA) ib.1 =
      ((observed_types (amenity_building_pairs bufferFn rawB rawA)).map
        (fun t => count_pairs (amenity_building_pairs bufferFn rawB rawA) ib.1 t)).sum := by
  constructor
  · intro t ht
    rw [building_export_row, ← amen_value_eq_count]
    exact List.mem_map.mpr ⟨t, ht, rfl⟩
  · rw [num_amenities, building_export_row, List.map_map]
    congr 1
    apply List.map_congr_left
    intro t ht
    simp [amen_value_eq_count]

/-- Witness for C1: one valid building whose buffer contains one
"Parks" amenity — the exported row carries `("amen_parks", 1)` and
`num_amenities` is 1. -/
theorem count_completeness_witness :
    ("amen_" ++ "parks",
      count_pairs (amenity_building_pairs id [⟨[((0 : ℚ), (0 : ℚ))], true⟩]
        [⟨some [((0 : ℚ), (0 : ℚ))], some "Parks"⟩]) 0 "parks") ∈
      building_export_row (amenity_building_pairs id [⟨[((0 : ℚ), (0 : ℚ))], true⟩]
        [⟨some [((0 : ℚ), (0 : ℚ))], some "Parks"⟩]) 0 ∧
    num_amenities (amenity_building_pairs id [⟨[((0 : ℚ), (0 : ℚ))], true⟩]
      [⟨some [((0 : ℚ), (0 : ℚ))], some "Parks"⟩]) 0 = 1 := by
  have h := count_completeness id [⟨[((0 : ℚ), (0 : ℚ))], true⟩]
    [⟨some [((0 : ℚ), (0 : ℚ))], some "Parks"⟩]
    (0, ⟨[((0 : ℚ), (0 : ℚ))], true⟩) (by decide)
  exact ⟨h.1 "parks" (by decide), h.2.trans (by decide)⟩

/-- Counterexample to C4 as stated: an amenity whose classification is
the blank string " " is NOT dropped before the join — it survives the
null filter, with `amenity_type` normalized to the empty string. -/
theorem blank_classification_not_dropped_cex :
    amenities_nonnull [⟨some [((0 : ℚ), (0 : ℚ))], some " "⟩]
      = [(⟨some [((0 : ℚ), (0 : ℚ))], some " "⟩, some "")] := by
  decide

/-- Claim C4 (amended): amenities whose classification is MISSING
(rendered `"nan"` by `astype(str)` and mapped to null) are dropped
before the join and aggregation, and `amenity_type` is never null among
the surviving amenity rows; a BLANK classification, however, is not
dropped — it normalizes to the empty string and the feature is retained
(`blank_classification_not_dropped_cex`). -/
theorem amenity_type_never_null (rawA : List RawAmenity) :
    (∀ p ∈ amenities_nonnull rawA, p.2 ≠ none) ∧
    (∀ a ∈ rawA, normalizeType a.top_classi = none →
      ∀ t, (a, t) ∉ amenities_nonnull rawA) ∧
    (∀ a ∈ rawA, a.top_classi = none → ∀ t, (a, t) ∉ amenities_nonnull rawA) := by
  have hdrop : ∀ a ∈ rawA, normalizeType a.top_classi = none →
      ∀ t, (a, t) ∉ amenities_nonnull rawA := by
    intro a _ hnorm t hmem
    rw [amenities_nonnull, List.mem_filter] at hmem
    obtain ⟨hmem, hsome⟩ := hmem
    rw [with_amenity_type] at hmem
    obtain ⟨a2, _, heq⟩ := List.mem_map.mp hmem
    have ha : a2 = a := congrArg Prod.fst heq
    have ht : normalizeType a2.top_classi = t := congrArg Prod.snd heq
    rw [ha, hnorm] at ht
    rw [← ht] at hsome
    cases hsome
  refine ⟨?_, hdrop, ?_⟩
  · intro p hp
    rw [amenities_nonnull, List.mem_filter] at hp
    intro hnone
    rw [hnone] at hp
    cases hp.2
  · intro a ha hmiss
    apply hdrop a ha
    rw [hmiss]
    rfl

/-- Witness for C4 (amended): an amenity with a missing classification
is dropped — it appears with no derived type in the surviving rows. -/
theorem amenity_type_never_null_witness :
    ((⟨some [((0 : ℚ), (0 : ℚ))], none⟩ : RawAmenity), some "nan")
      ∉ amenities_nonnull [⟨some [((0 : ℚ), (0 : ℚ))], none⟩] :=
  (amenity_type_never_null [⟨some [((0 : ℚ), (0 : ℚ))], none⟩]).2.2
    ⟨some [((0 : ℚ), (0 : ℚ))], none⟩ (by decide) rfl (some "nan")

/-- Claim C5: the excluded-category set filters only the exported
amenity layers, not the join input — a surviving amenity whose type is
in the excluded set is absent from the export, yet whenever its
geometry lies fully inside an accepted building's buffer it still
produces a join pair and contributes (at least 1) to that building's
`amen_<category>` count, hence to `num_amenities`. -/
theorem excluded_types_counted_not_exported (bufferFn : List Pt → List Pt)
    (rawB : List RawBuilding) (rawA : List RawAmenity)
    (p : RawAmenity × Option String) (hp : p ∈ amenities_nonnull rawA)
    (t : String) (ht : p.2 = some t) (hex : t ∈ EXCLUDED_AMENITY_TYPES) :
    p ∉ amenities_exported (amenities_nonnull rawA) ∧
    (∀ b r, (b, r) ∈ building_buffers bufferFn rawB →
      withinO p.1.geom r = true →
      (p, b) ∈ amenity_building_pairs bufferFn rawB rawA ∧
      1 ≤ count_pairs (amenity_building_pairs bufferFn rawB rawA) b t) := by
  constructor
  · intro hmem
    rw [amenities_exported, List.mem_filter] at hmem
    have hcond := hmem.2
    rw [ht] at hcond
    simp only [Bool.and_eq_true, Bool.not_eq_true'] at hcond
    have : EXCLUDED_AMENITY_TYPES.contains t = true :=
      List.elem_eq_true_of_mem hex
    rw [this] at hcond
    cases hcond.1.1
  · intro b r hbuf hw
    have hpair : (p, b) ∈ amenity_building_pairs bufferFn rawB rawA := by
      rw [amenity_building_pairs, mem_dropna_bid, mem_sjoin_some_iff]
      exact ⟨hp, r, hbuf, hw⟩
    refine ⟨hpair, ?_⟩
    have hfil : (p, b) ∈ (amenity_building_pairs bufferFn rawB rawA).filter
        (fun pr => pr.2 == b && pr.1.2 == some t) :=
      List.mem_filter.mpr ⟨hpair, by simp [ht]⟩
    exact List.length_pos_of_mem hfil

/-- Witness for C5: an amenity classified "None" (normalized to the
excluded type "none") inside a building's buffer is counted for that
building but excluded from the amenity export. -/
theorem excluded_types_counted_not_exported_witness :
    ((⟨some [((0 : ℚ), (0 : ℚ))], some "None"⟩ : RawAmenity), some "none")
      ∉ amenities_exported (amenities_nonnull
        [⟨some [((0 : ℚ), (0 : ℚ))], some "None"⟩]) ∧
    ((((⟨some [((0 : ℚ), (0 : ℚ))], some "None"⟩ : RawAmenity), some "none"), 0)
      ∈ amenity_building_pairs id [⟨[((0 : ℚ), (0 : ℚ))], true⟩]
        [⟨some [((0 : ℚ), (0 : ℚ))], some "None"⟩] ∧
      1 ≤ count_pairs (amenity_building_pairs id [⟨[((0 : ℚ), (0 : ℚ))], true⟩]
        [⟨some [((0 : ℚ), (0 : ℚ))], some "None"⟩]) 0 "none") := by
  have h := excluded_types_counted_not_exported id [⟨[((0 : ℚ), (0 : ℚ))], true⟩]
    [⟨some [((0 : ℚ), (0 : ℚ))], some "None"⟩]
    (⟨some [((0 : ℚ), (0 : ℚ))], some "None"⟩, some "none") (by decide)
    "none" rfl (by decide)
  exact ⟨h.1, h.2 0 [((0 : ℚ), (0 : ℚ))] (by decide) (by decide)⟩

end Urban95
